import Mathlib

/-!
# Verification of the pymend docstring toolkit

Shallow embedding of the pymend repository's multi-style docstring
parsing/composition engine (the `docstring_parser` subsystem) together with
the `file_parser.py` signature-extraction helpers, and proofs of the frozen
claims about them.

The `docstring_parser` implementation itself is not shipped in `src/` (only
its test-suite is), so the definitions in the `DP` namespace are modelled
from the specification (spec.md sections 3, 4, 6 - 8), using the literal
expectations of the shipped tests as ground truth for the observable values.
All text processing is modelled at the level of lines, a line being a
`List Char`; a docstring text is split at `'\n'` characters exactly as
Python's `str.split("\n")` does.
-/

deriving instance DecidableEq for Except

namespace DP

/-- A single line of text, as a list of characters. -/
abbrev Line := List Char

/-- Whitespace test used throughout (Python `str.strip` whitespace). -/
def isWs (c : Char) : Bool := c.isWhitespace

/-- Strip leading whitespace from a line (Python `lstrip`). -/
def lstripL (l : Line) : Line := l.dropWhile isWs

/-- Strip trailing whitespace from a line (Python `rstrip`). -/
def rstripL (l : Line) : Line := (l.reverse.dropWhile isWs).reverse

/-- Strip whitespace from both ends (Python `strip`). -/
def stripL (l : Line) : Line := rstripL (lstripL l)

/-- Auxiliary worker for `splitChar`: `acc` holds the current chunk reversed. -/
def splitCharAux (c : Char) : List Char → List Char → List (List Char)
  | [], acc => [acc.reverse]
  | x :: xs, acc =>
    if x = c then acc.reverse :: splitCharAux c xs []
    else splitCharAux c xs (x :: acc)

/-- Split a character list at every occurrence of `c`
(Python `str.split(c)` semantics: `split "" = [""]`, separators kept as
empty chunks). -/
def splitChar (c : Char) (l : List Char) : List (List Char) := splitCharAux c l []

/-- Join chunks with a single separator character (Python `c.join`). -/
def joinSep (c : Char) : List (List Char) → List Char
  | [] => []
  | [l] => l
  | l :: ls => l ++ c :: joinSep c ls

/-- Join lines with newlines (Python `"\n".join`). -/
def joinL (ls : List Line) : List Char := joinSep '\n' ls

/-- Break a character list at the first occurrence of `c`
(Python `str.split(c, 1)`); `none` when `c` does not occur. -/
def breakAtChar (c : Char) : List Char → Option (List Char × List Char)
  | [] => none
  | x :: xs =>
    if x = c then some ([], xs)
    else (breakAtChar c xs).map (fun p => (x :: p.1, p.2))

/-- Auxiliary worker for `wordsL`. -/
def splitWsAux : List Char → List Char → List (List Char)
  | [], acc => [acc.reverse]
  | x :: xs, acc =>
    if isWs x then acc.reverse :: splitWsAux xs []
    else splitWsAux xs (x :: acc)

/-- Split a line into whitespace-separated words (Python `str.split()`). -/
def wordsL (l : Line) : List (List Char) := (splitWsAux l []).filter (fun w => w ≠ [])

/-- Width of the leading whitespace of a line. -/
def lineIndent (l : Line) : Nat := (l.takeWhile isWs).length

/-- The line with leading whitespace removed; `[]` iff the line is blank. -/
def lineContent (l : Line) : Line := l.dropWhile isWs

/-- Drop trailing empty lines (Python `while lines and not lines[-1]: pop`). -/
def dropTrailingEmpty (ls : List Line) : List Line :=
  (ls.reverse.dropWhile (fun l => l = [])).reverse

/-- Drop leading empty lines (Python `while lines and not lines[0]: pop(0)`). -/
def dropLeadingEmpty (ls : List Line) : List Line :=
  ls.dropWhile (fun l => l = [])

/-- Common indentation margin of the lines that have content, if any. -/
def marginOf (ls : List Line) : Option Nat :=
  ((ls.filter (fun l => lineContent l ≠ [])).map lineIndent).min?

/-- Model of Python's `inspect.cleandoc`, at line level: the first line is
fully left-stripped, the remaining lines are dedented by their common
margin, and leading/trailing empty lines are removed.  Every style parser
applies this normalization first; it collapses exactly the leading
indentation shared by all (non-first) lines. -/
def cleandocLines : List Line → List Line
  | [] => []
  | first :: rest =>
    let rest' :=
      match marginOf rest with
      | some m => rest.map (fun l => l.drop m)
      | none => rest
    dropLeadingEmpty (dropTrailingEmpty (lstripL first :: rest'))

/-- Split a string into lines (Python `text.split("\n")`). -/
def splitLinesStr (s : String) : List Line := splitChar '\n' s.data

/-- Dedent a block of lines by its common margin (used for section blocks
and continuation lines). -/
def dedentBlock (ls : List Line) : List Line :=
  match marginOf ls with
  | some m => ls.map (fun l => l.drop m)
  | none => ls

/-- Normalized form of a docstring text: shared leading indentation
collapsed and surrounding blank lines removed (`inspect.cleandoc`). -/
def normalizeText (s : String) : String :=
  String.mk (joinL (cleandocLines (splitLinesStr s)))

/-! ## Common model

Modelled from the spec: section 3 (data model) and 4.1 (enums) of spec.md;
the `docstring_parser/common.py` module is not shipped in `src/`. -/

/-- Docstring grammar styles (`DocstringStyle` enum). -/
inductive DocstringStyle
  | rest
  | google
  | numpydoc
  | epydoc
  | auto
deriving DecidableEq

/-- Printable name of a style, as used in error messages. -/
def DocstringStyle.styleName : DocstringStyle → String
  | .rest => "REST"
  | .google => "GOOGLE"
  | .numpydoc => "NUMPYDOC"
  | .epydoc => "EPYDOC"
  | .auto => "AUTO"

/-- Parse failure carrying a user-displayable message (`ParseError`). -/
structure ParseError where
  msg : String
deriving DecidableEq

/-- The tagged meta variants of the common model (`DocstringMeta` and its
subclasses `DocstringParam`, `DocstringReturns`, `DocstringRaises`). -/
inductive DocstringMeta
  /-- An argument: tag args, description, name, optional type, optional
  flag and optional default literal. -/
  | param (args : List String) (description : Option String)
      (argName : String) (typeName : Option String)
      (isOptional : Bool) (default : Option String)
  /-- A return or yield shape, discriminated by `isGenerator`. -/
  | returns (args : List String) (description : Option String)
      (typeName : Option String) (isGenerator : Bool)
  /-- A raised exception. -/
  | raises (args : List String) (description : Option String)
      (typeName : Option String)
  /-- Generic meta: tag words plus free-text description. -/
  | meta (args : List String) (description : Option String)
deriving DecidableEq

/-- The unified parsed representation (`Docstring`). -/
structure Docstring where
  shortDescription : Option String
  longDescription : Option String
  blankAfterShortDescription : Bool
  blankAfterLongDescription : Bool
  style : Option DocstringStyle
  meta : List DocstringMeta
deriving DecidableEq

/-- A freshly constructed empty docstring model (`Docstring()`). -/
def Docstring.empty : Docstring :=
  ⟨none, none, false, false, none, []⟩

/-- An empty docstring model as produced by the parser of style `s`. -/
def emptyWithStyle (s : DocstringStyle) : Docstring :=
  ⟨none, none, false, false, some s, []⟩

/-! ## Shared description splitting

Modelled from the spec: section 4.2 step 1 — split the text before the
first style meta marker into a short description (first line), a long
description, and the two blank-line flags.  Mirrors the
`desc_chunk.split("\n", 1)` /  `startswith("\n")` / `endswith("\n\n")` /
`strip()` processing shared by the style parsers. -/

structure DescParts where
  short : Option String
  long : Option String
  blankShort : Bool
  blankLong : Bool
deriving DecidableEq

/-- Split the description chunk (the lines before the first meta marker;
when a marker exists the chunk carries a final empty line standing for the
newline that preceded the marker). -/
def splitDesc (chunk : List Line) : DescParts :=
  match chunk with
  | [] => ⟨none, none, false, false⟩
  | h :: rest =>
    { short := if h = [] then none else some (String.mk h)
      long :=
        let l := stripL (joinL rest)
        if l = [] then none else some (String.mk l)
      blankShort := decide (2 ≤ rest.length) && decide (rest.head? = some [])
      blankLong := decide (3 ≤ rest.length) && decide (rest.getLast? = some [])
        && decide (rest.dropLast.getLast? = some []) }

/-- Split the cleaned lines at the first marker line. -/
def splitAtMarker (isM : Line → Bool) : List Line → List Line × List Line
  | [] => ([], [])
  | l :: rest =>
    if isM l then ([], l :: rest)
    else
      let r := splitAtMarker isM rest
      (l :: r.1, r.2)

/-- Description chunk of a parse: the lines before the marker, with the
trailing newline accounted for when a marker region follows. -/
def descChunk (descL metaL : List Line) : List Line :=
  if metaL = [] then descL else descL ++ [[]]

/-- Group a marker region into `(marker line, continuation lines)` pairs:
every line satisfying `isStart` opens a token, the following lines belong
to it.  Lines (if any) before the first marker are discarded — the callers
guarantee the region starts with a marker. -/
def groupTokens (isStart : Line → Bool) (ls : List Line) :
    List (Line × List Line) :=
  (ls.foldr
    (fun l acc =>
      if isStart l then ((l, acc.2) :: acc.1, [])
      else (acc.1, l :: acc.2))
    ([], [])).1

/-- Continuation lines of a token, dedented by their common margin and with
surrounding blank lines removed. -/
def cleanConts (conts : List Line) : List Line :=
  dropLeadingEmpty (dropTrailingEmpty (dedentBlock conts))

/-- Assemble a token description from the inline part and the cleaned
continuation lines. -/
def tokenDesc (inline : Line) (conts : List Line) : String :=
  match cleanConts conts with
  | [] => String.mk inline
  | cs => if inline = [] then String.mk (joinL cs)
          else String.mk (joinL (inline :: cs))

/-- Description lines of a composed docstring, shared by all composers:
short description, blank-line flags, long description. -/
def descLines (d : Docstring) : List Line :=
  (match d.shortDescription with
   | some s => [s.data]
   | none => []) ++
  (if d.blankAfterShortDescription then [([] : Line)] else []) ++
  (match d.longDescription with
   | some l => splitChar '\n' l.data
   | none => []) ++
  (if d.blankAfterLongDescription then [([] : Line)] else [])

/-! ## Epydoc style

Modelled from the spec: section 4.2 (Epydoc grammar: `@tag arg1 arg2:
description` marker lines, `StreamToken` accumulation, ParseError when a
tag line cannot be tokenized) and 4.3 (composer, encounter order with type
tags immediately before their param tags); `docstring_parser/epydoc.py` is
not shipped in `src/`.  The composer is modelled at the default COMPACT
rendering mode with the default 4-space indent, which is all the claims
exercise. -/
namespace Epydoc

def paramKeywords : List String := ["param", "parameter", "arg", "argument", "keyword"]
def typeKeywords : List String := ["type"]
def raiseKeywords : List String := ["raise", "raises", "except", "exception"]
def returnKeywords : List String := ["return", "returns"]
def rtypeKeywords : List String := ["rtype"]
def yieldKeywords : List String := ["yield", "yields"]
def ytypeKeywords : List String := ["ytype"]

/-- All tags with a recognized (arg-count constrained) meaning. -/
def recognizedKeywords : List String :=
  paramKeywords ++ typeKeywords ++ raiseKeywords ++ returnKeywords ++
    rtypeKeywords ++ yieldKeywords ++ ytypeKeywords

/-- Intermediate lexical unit for one `@tag args: description` group. -/
structure StreamToken where
  tag : String
  args : List String
  desc : String
deriving DecidableEq

/-- Does this line open an epydoc meta token? -/
def isAtLine (l : Line) : Bool :=
  match l with
  | c :: _ => c = '@'
  | [] => false

/-- Does a tag admit this number of extra arguments?  Recognized tags
constrain their argument count (`@param`/`@type` take exactly one,
`@raise` up to one, returns/yields tags none); unrecognized tags admit any
number of arguments. -/
def tagArgsOk (tag : String) (nargs : Nat) : Bool :=
  if tag ∈ paramKeywords ++ typeKeywords then nargs = 1
  else if tag ∈ raiseKeywords then nargs ≤ 1
  else if tag ∈ returnKeywords ++ rtypeKeywords ++
      yieldKeywords ++ ytypeKeywords then nargs = 0
  else true

/-- Tokenize one `@tag arg1 arg2: description` marker line (plus its
continuation lines) into a `StreamToken`: a tag plus zero or more extra
args.  Unrecognized tags are not an error and pass through with all their
args.  Fails when the line cannot be tokenized into at least a tag (a bare
`@`, or a tag line with no following colon), or when a recognized tag has
the wrong number of arguments (so a multi-word line whose recognized tag
admits no such form, like `@param with too many args:`, fails). -/
def parseToken (line : Line) (conts : List Line) :
    Except ParseError StreamToken :=
  let rest := match line with
    | _ :: r => r
    | [] => []
  match breakAtChar ':' rest with
  | none => .error ⟨"Expected a colon in `" ++ String.mk line ++ "`."⟩
  | some (before, after) =>
    let inline := lstripL after
    match wordsL before with
    | [] => .error ⟨"Expected a tag in `" ++ String.mk line ++ "`."⟩
    | t :: args =>
      let tag := String.mk t
      if tagArgsOk tag args.length then
        .ok ⟨tag, args.map String.mk, tokenDesc inline conts⟩
      else
        .error ⟨"Unexpected number of arguments in `" ++ String.mk line ++ "`."⟩

/-- First `@type`-declared type for the given argument name, if any. -/
def typeFor (stream : List StreamToken) (name : String) : Option String :=
  (stream.find? (fun t => t.tag ∈ typeKeywords && t.args = [name])).map
    (fun t => t.desc)

/-- First declared return (resp. yield) type, if any. -/
def rtypeOf (stream : List StreamToken) (kws : List String) : Option String :=
  (stream.find? (fun t => t.tag ∈ kws)).map (fun t => t.desc)

/-- Merge the token stream into ordered meta entries
(`_add_meta_information`): `@type` tokens attach to their `@param`,
`@rtype`/`@ytype` attach to `@return`/`@yield`; a lone `@rtype`/`@ytype`
still yields a returns entry. -/
def addMetaInformation (stream : List StreamToken) : List DocstringMeta :=
  let rt := rtypeOf stream rtypeKeywords
  let yt := rtypeOf stream ytypeKeywords
  let main := stream.filterMap (fun t =>
    if t.tag ∈ typeKeywords ++ rtypeKeywords ++ ytypeKeywords then none
    else if t.tag ∈ paramKeywords then
      match t.args with
      | [n] => some (.param [t.tag, n] (some t.desc) n (typeFor stream n) false none)
      | _ => none
    else if t.tag ∈ returnKeywords then
      some (.returns [t.tag] (some t.desc) rt false)
    else if t.tag ∈ yieldKeywords then
      some (.returns [t.tag] (some t.desc) yt true)
    else if t.tag ∈ raiseKeywords then
      some (.raises (t.tag :: t.args) (some t.desc) t.args.head?)
    else
      some (.meta (t.tag :: t.args) (some t.desc)))
  let hasReturn := stream.any (fun t => t.tag ∈ returnKeywords)
  let hasYield := stream.any (fun t => t.tag ∈ yieldKeywords)
  main
    ++ (match rt with
        | some ty => if hasReturn then [] else [.returns ["rtype"] none (some ty) false]
        | none => [])
    ++ (match yt with
        | some ty => if hasYield then [] else [.returns ["ytype"] none (some ty) true]
        | none => [])

/-- Epydoc `parse(text)`. -/
def parse (text : String) : Except ParseError Docstring :=
  let lines := cleandocLines (splitLinesStr text)
  let split := splitAtMarker isAtLine lines
  let parts := splitDesc (descChunk split.1 split.2)
  match (groupTokens isAtLine split.2).mapM (fun g => parseToken g.1 g.2) with
  | .error e => .error e
  | .ok stream =>
    .ok { shortDescription := parts.short
          longDescription := parts.long
          blankAfterShortDescription := parts.blankShort
          blankAfterLongDescription := parts.blankLong
          style := some .epydoc
          meta := addMetaInformation stream }

/-- Inline rendering of a description after a colon: a bare colon when the
description is empty, `": desc"` otherwise, continuation lines indented. -/
def colonDesc (desc : Option String) : Line :=
  match desc with
  | none => [':']
  | some d =>
    match splitChar '\n' d.data with
    | [] => [':']
    | first :: rest =>
      if first = [] ∧ rest = [] then [':']
      else ':' :: ' ' :: joinL (first :: rest.map (fun l => "    ".data ++ l))

/-- Compose one meta entry to epydoc lines (COMPACT mode). -/
def metaLines : DocstringMeta → List Line
  | .param _ desc argName typeName _ _ =>
    (match typeName with
     | some t => [("@type " ++ argName ++ ": " ++ t).data]
     | none => []) ++
    [("@param " ++ argName).data ++ colonDesc desc]
  | .returns _ desc typeName isGenerator =>
    (match typeName with
     | some t =>
       [((if isGenerator then "@ytype: " else "@rtype: ") ++ t).data]
     | none => []) ++
    (match desc with
     | some d => [(if isGenerator then "@yield" else "@return").data ++ colonDesc (some d)]
     | none => [])
  | .raises _ desc typeName =>
    [("@raise" ++ (match typeName with | some t => " " ++ t | none => "")).data
      ++ colonDesc desc]
  | .meta args desc =>
    ['@' :: joinSep ' ' (args.map String.data) ++ colonDesc desc]

/-- Epydoc `compose(docstring)` at the default COMPACT rendering. -/
def compose (d : Docstring) : String :=
  String.mk (joinL (descLines d ++ d.meta.flatMap metaLines))

end Epydoc

/-! ## ReST style

Modelled from the spec: section 4.2 (ReST grammar: `:tag further args:`
colon-delimited field lists, ParseError on wrong argument counts) and 4.3;
`docstring_parser/rest.py` is not shipped in `src/`.  The composer is
modelled at the default COMPACT rendering. -/
namespace Rest

def paramKeywords : List String := ["param", "parameter", "arg", "argument", "key", "keyword"]
def typeKeywords : List String := ["type"]
def raiseKeywords : List String := ["raises", "raise", "except", "exception"]
def returnKeywords : List String := ["return", "returns"]
def rtypeKeywords : List String := ["rtype"]
def yieldKeywords : List String := ["yield", "yields"]
def ytypeKeywords : List String := ["ytype"]

/-- Does this line open a ReST field? -/
def isFieldLine (l : Line) : Bool :=
  match l with
  | c :: _ => c = ':'
  | [] => false

/-- Intermediate field token: tag, extra args, description text. -/
structure FieldToken where
  tag : String
  args : List String
  desc : String
deriving DecidableEq

/-- Tokenize one `:tag args: description` field line (plus continuation
lines).  Fails when the field name has the wrong number of arguments for a
recognized tag. -/
def parseToken (line : Line) (conts : List Line) :
    Except ParseError FieldToken :=
  let rest := match line with
    | _ :: r => r
    | [] => []
  match breakAtChar ':' rest with
  | none => .error ⟨"Expected a closing colon in `" ++ String.mk line ++ "`."⟩
  | some (before, after) =>
    let inline := lstripL after
    match wordsL before with
    | [] => .error ⟨"Expected a field name in `" ++ String.mk line ++ "`."⟩
    | t :: args =>
      let tag := String.mk t
      let nargs := args.length
      let ok : Bool :=
        if tag ∈ paramKeywords then nargs = 1 || nargs = 2
        else if tag ∈ typeKeywords then nargs = 1
        else if tag ∈ raiseKeywords ++ returnKeywords ++ yieldKeywords then nargs ≤ 1
        else if tag ∈ rtypeKeywords ++ ytypeKeywords then nargs = 0
        else true
      if ok then .ok ⟨tag, args.map String.mk, tokenDesc inline conts⟩
      else .error ⟨"Unexpected number of arguments in `" ++ String.mk line ++ "`."⟩

/-- First `:type name:`-declared type for the given argument name. -/
def typeFor (stream : List FieldToken) (name : String) : Option String :=
  (stream.find? (fun t => t.tag ∈ typeKeywords && t.args = [name])).map
    (fun t => t.desc)

/-- First declared return (resp. yield) type from `:rtype:`/`:ytype:`. -/
def rtypeOf (stream : List FieldToken) (kws : List String) : Option String :=
  (stream.find? (fun t => t.tag ∈ kws)).map (fun t => t.desc)

/-- Merge field tokens into ordered meta entries. -/
def addMetaInformation (stream : List FieldToken) : List DocstringMeta :=
  let rt := rtypeOf stream rtypeKeywords
  let yt := rtypeOf stream ytypeKeywords
  let main := stream.filterMap (fun t =>
    if t.tag ∈ typeKeywords ++ rtypeKeywords ++ ytypeKeywords then none
    else if t.tag ∈ paramKeywords then
      match t.args with
      | [n] => some (.param [t.tag, n] (some t.desc) n (typeFor stream n) false none)
      | [ty, n] => some (.param [t.tag, ty, n] (some t.desc) n (some ty) false none)
      | _ => none
    else if t.tag ∈ returnKeywords then
      some (.returns (t.tag :: t.args) (some t.desc)
        (match t.args with | [ty] => some ty | _ => rt) false)
    else if t.tag ∈ yieldKeywords then
      some (.returns (t.tag :: t.args) (some t.desc)
        (match t.args with | [ty] => some ty | _ => yt) true)
    else if t.tag ∈ raiseKeywords then
      some (.raises (t.tag :: t.args) (some t.desc) t.args.head?)
    else
      some (.meta (t.tag :: t.args) (some t.desc)))
  let hasReturn := stream.any (fun t => t.tag ∈ returnKeywords)
  let hasYield := stream.any (fun t => t.tag ∈ yieldKeywords)
  main
    ++ (match rt with
        | some ty => if hasReturn then [] else [.returns ["rtype"] none (some ty) false]
        | none => [])
    ++ (match yt with
        | some ty => if hasYield then [] else [.returns ["ytype"] none (some ty) true]
        | none => [])

/-- ReST `parse(text)`. -/
def parse (text : String) : Except ParseError Docstring :=
  let lines := cleandocLines (splitLinesStr text)
  let split := splitAtMarker isFieldLine lines
  let parts := splitDesc (descChunk split.1 split.2)
  match (groupTokens isFieldLine split.2).mapM (fun g => parseToken g.1 g.2) with
  | .error e => .error e
  | .ok stream =>
    .ok { shortDescription := parts.short
          longDescription := parts.long
          blankAfterShortDescription := parts.blankShort
          blankAfterLongDescription := parts.blankLong
          style := some .rest
          meta := addMetaInformation stream }

/-- Compose one meta entry to ReST field lines (COMPACT mode). -/
def metaLines : DocstringMeta → List Line
  | .param _ desc argName typeName _ _ =>
    (match typeName with
     | some t => [(":type " ++ argName ++ ": " ++ t).data]
     | none => []) ++
    [(":param " ++ argName).data ++ Epydoc.colonDesc desc]
  | .returns _ desc typeName isGenerator =>
    (match typeName with
     | some t =>
       [((if isGenerator then ":ytype: " else ":rtype: ") ++ t).data]
     | none => []) ++
    (match desc with
     | some d =>
       [(if isGenerator then ":yield" else ":return").data ++ Epydoc.colonDesc (some d)]
     | none => [])
  | .raises _ desc typeName =>
    [(":raises" ++ (match typeName with | some t => " " ++ t | none => "")).data
      ++ Epydoc.colonDesc desc]
  | .meta args desc =>
    [':' :: joinSep ' ' (args.map String.data) ++ Epydoc.colonDesc desc]

/-- ReST `compose(docstring)` at the default COMPACT rendering. -/
def compose (d : Docstring) : String :=
  String.mk (joinL (descLines d ++ d.meta.flatMap metaLines))

end Rest

/-! ## Google style

Modelled from the spec: section 3 (`Section` descriptors with a
`SectionType`), 4.2 (Google grammar: section headers followed by indented
blocks, SINGULAR sections as one blob, MULTIPLE sections as
`name (type, optional): description` entries with deeper-indented
continuation lines, unknown headers folded into the description) and 4.3
(composer with meta grouped by section, Returns before Yields);
`docstring_parser/google.py` is not shipped in `src/`.  The default
section registry with `title_colon` enabled is modelled; the composer is
modelled at the default COMPACT rendering with the default 4-space indent. -/
namespace Google

/-- SINGULAR: whole block is one description; MULTIPLE: line-by-line
`name: description` entries. -/
inductive SectionType
  | singular
  | multiple
deriving DecidableEq

/-- Declarative section descriptor: title, meta key, section type. -/
structure Section where
  title : String
  key : String
  type : SectionType
deriving DecidableEq

/-- The default section registry of `GoogleParser`. -/
def DEFAULT_SECTIONS : List Section :=
  [⟨"Arguments", "param", .multiple⟩,
   ⟨"Args", "param", .multiple⟩,
   ⟨"Parameters", "param", .multiple⟩,
   ⟨"Params", "param", .multiple⟩,
   ⟨"Raises", "raises", .multiple⟩,
   ⟨"Exceptions", "raises", .multiple⟩,
   ⟨"Except", "raises", .multiple⟩,
   ⟨"Attributes", "attribute", .multiple⟩,
   ⟨"Example", "examples", .singular⟩,
   ⟨"Examples", "examples", .singular⟩,
   ⟨"Returns", "returns", .singular⟩,
   ⟨"Yields", "yields", .singular⟩]

/-- Is this (flush-left) line a recognized section header (`Title:`)? -/
def isHeaderLine (l : Line) : Bool :=
  lineIndent l = 0 &&
    DEFAULT_SECTIONS.any (fun s => rstripL l = (s.title ++ ":").data)

/-- The section a header line belongs to. -/
def sectionFor (l : Line) : Option Section :=
  DEFAULT_SECTIONS.find? (fun s => rstripL l = (s.title ++ ":").data)

/-- Split `name`, optional `(type)` and optional marker out of the part of
a MULTIPLE entry before the colon: `name (type, optional)` forms. -/
def parseEntryName (before : Line) : String × Option String × Bool :=
  match breakAtChar '(' before with
  | none => (String.mk (stripL before), none, false)
  | some (name, after) =>
    let inner := match breakAtChar ')' after with
      | some (i, _) => i
      | none => after
    let optionalSuffix := ", optional".data
    if optionalSuffix.isSuffixOf inner then
      (String.mk (stripL name),
       some (String.mk (inner.take (inner.length - optionalSuffix.length))),
       true)
    else
      (String.mk (stripL name), some (String.mk inner), false)

/-- Parse one MULTIPLE-section entry (first line plus deeper-indented
continuation lines); the entry must contain a colon. -/
def parseEntry (sec : Section) (line : Line) (conts : List Line) :
    Except ParseError DocstringMeta :=
  match breakAtChar ':' line with
  | none => .error ⟨"Expected a colon in `" ++ String.mk line ++ "`."⟩
  | some (before, after) =>
    let desc := tokenDesc (lstripL after) conts
    let nto := parseEntryName before
    if sec.key = "param" then
      .ok (.param [sec.key, nto.1] (some desc) nto.1 nto.2.1 nto.2.2 none)
    else if sec.key = "raises" then
      .ok (.raises [sec.key, nto.1] (some desc) (some nto.1))
    else
      .ok (.meta [sec.key, nto.1] (some desc))

/-- Parse one SINGULAR-section block into its meta entry. -/
def parseSingular (sec : Section) (content : List Line) : DocstringMeta :=
  let text := joinL content
  if sec.key = "returns" ∨ sec.key = "yields" then
    let gen := sec.key = "yields"
    match breakAtChar ':' text with
    | some (before, after) =>
      .returns [sec.key] (some (String.mk (lstripL after))) (some (String.mk (stripL before))) gen
    | none => .returns [sec.key] (some (String.mk text)) none gen
  else
    .meta [sec.key] (some (String.mk text))

/-- Parse one section (header line plus block lines) into meta entries. -/
def parseSection (header : Line) (block : List Line) :
    Except ParseError (List DocstringMeta) :=
  match sectionFor header with
  | none => .ok []
  | some sec =>
    let blockC := dropLeadingEmpty (dropTrailingEmpty (dedentBlock block))
    match sec.type with
    | .singular =>
      if blockC = [] then .ok [] else .ok [parseSingular sec blockC]
    | .multiple =>
      let items := groupTokens (fun l => l ≠ [] && lineIndent l = 0) blockC
      items.mapM (fun g => parseEntry sec g.1 g.2)

/-- Google `parse(text)` with default sections. -/
def parse (text : String) : Except ParseError Docstring :=
  let lines := cleandocLines (splitLinesStr text)
  let split := splitAtMarker isHeaderLine lines
  let parts := splitDesc (descChunk split.1 split.2)
  match (groupTokens isHeaderLine split.2).mapM
      (fun g => parseSection g.1 g.2) with
  | .error e => .error e
  | .ok metas =>
    .ok { shortDescription := parts.short
          longDescription := parts.long
          blankAfterShortDescription := parts.blankShort
          blankAfterLongDescription := parts.blankLong
          style := some .google
          meta := metas.flatten }

/-! ### Google composer -/

/-- Indent every line of a description by the given prefix. -/
def indentLines (pre : String) (ls : List Line) : List Line :=
  ls.map (fun l => if l = [] then [] else pre.data ++ l)

/-- Entry lines for one meta entry inside a section block (COMPACT). -/
def entryLines : DocstringMeta → List Line
  | .param _ desc argName typeName isOptional _ =>
    let ty := match typeName with
      | some t => " (" ++ t ++ (if isOptional then "?" else "") ++ ")"
      | none => ""
    let d := (desc.getD "").data
    (match splitChar '\n' d with
     | first :: rest =>
       (("    " ++ argName ++ ty ++ ":").data ++
         (if first = [] then [] else ' ' :: first)) ::
         indentLines "        " rest
     | [] => [("    " ++ argName ++ ty ++ ":").data])
  | .returns _ desc typeName _ =>
    let content := (match typeName with
      | some t => t ++ ": "
      | none => "") ++ desc.getD ""
    indentLines "    " (splitChar '\n' content.data)
  | .raises _ desc typeName =>
    let content := (match typeName with
      | some t => t ++ (match desc with | some _ => ": " | none => "")
      | none => "") ++ desc.getD ""
    if content = "" then [[]]
    else indentLines "    " (splitChar '\n' content.data)
  | .meta _ desc =>
    match desc with
    | some d => if d = "" then [] else indentLines "    " (splitChar '\n' d.data)
    | none => []

/-- Capitalized section title for a generic meta entry (`Meta:`). -/
def genericTitle (args : List String) : String :=
  match args with
  | a :: _ =>
    (match a.data with
     | c :: cs => String.mk (c.toUpper :: cs)
     | [] => "") ++ ":"
  | [] => ":"

def isParamMeta : DocstringMeta → Bool
  | .param _ _ _ _ _ _ => true
  | _ => false

def isReturnsMeta : DocstringMeta → Bool
  | .returns _ _ _ g => !g
  | _ => false

def isYieldsMeta : DocstringMeta → Bool
  | .returns _ _ _ g => g
  | _ => false

def isRaisesMeta : DocstringMeta → Bool
  | .raises _ _ _ => true
  | _ => false

def isGenericMeta (m : DocstringMeta) : Bool :=
  !(isParamMeta m || isReturnsMeta m || isYieldsMeta m || isRaisesMeta m)

/-- A titled section block for the given entries, absent when there are no
entries. -/
def sectionBlock (title : String) (entries : List DocstringMeta) :
    List (List Line) :=
  match entries with
  | [] => []
  | _ => [(title ++ ":").data :: entries.flatMap entryLines]

/-- The ordered section blocks of the Google composer: params are grouped
under `Args:`, then Returns, then Yields, then Raises, then the generic
meta entries in encounter order. -/
def composeSections (d : Docstring) : List (List Line) :=
  sectionBlock "Args" (d.meta.filter isParamMeta) ++
  sectionBlock "Returns" (d.meta.filter isReturnsMeta) ++
  sectionBlock "Yields" (d.meta.filter isYieldsMeta) ++
  sectionBlock "Raises" (d.meta.filter isRaisesMeta) ++
  (d.meta.filter isGenericMeta).map (fun m =>
    (genericTitle (match m with | .meta args _ => args | _ => [])).data
      :: entryLines m)

/-- Join section blocks with one blank line between consecutive blocks. -/
def joinBlocks : List (List Line) → List Line
  | [] => []
  | [b] => b
  | b :: bs => b ++ [] :: joinBlocks bs

/-- Google `compose(docstring)` at the default COMPACT rendering. -/
def compose (d : Docstring) : String :=
  String.mk (joinL (descLines d ++ joinBlocks (composeSections d)))

end Google

/-! ## Numpydoc style

Modelled from the spec: section 4.2 (Numpydoc grammar: title lines
underlined with `-` characters, `name : type` parameter entries with an
`optional` qualifier recognized and stripped into `is_optional`,
descriptions as the indented block following) and 4.3 (composer with meta
grouped by section, Returns before Yields); `docstring_parser/numpydoc.py`
is not shipped in `src/`. -/
namespace Numpydoc

/-- Recognized section titles and their meta keys. -/
def SECTIONS : List (String × String) :=
  [("Parameters", "param"), ("Params", "param"), ("Arguments", "param"),
   ("Args", "param"), ("Other Parameters", "other_param"),
   ("Attributes", "attribute"), ("Returns", "returns"), ("Yields", "yields"),
   ("Raises", "raises"), ("Warns", "warns"), ("Examples", "examples"),
   ("See Also", "see_also"), ("Warnings", "warnings"), ("Notes", "notes"),
   ("References", "references")]

/-- Is this line a `-`-underline of positive length? -/
def isDashLine (l : Line) : Bool :=
  l ≠ [] && l.all (fun c => c = '-')

/-- Is line `l` followed by `next` a recognized underlined section header? -/
def isHeaderAt (l : Line) (next : Option Line) : Bool :=
  (match next with
   | some u => isDashLine u
   | none => false) &&
  SECTIONS.any (fun s => rstripL l = s.1.data)

/-- Split the cleaned lines at the first underlined section header. -/
def splitAtHeader : List Line → List Line × List Line
  | [] => ([], [])
  | l :: rest =>
    if isHeaderAt l rest.head? then ([], l :: rest)
    else
      let r := splitAtHeader rest
      (l :: r.1, r.2)

/-- Parse the `name : type` head of a parameter entry, recognizing and
stripping the `optional` qualifier. -/
def parseParamHead (l : Line) : String × Option String × Bool :=
  match breakAtChar ':' l with
  | none => (String.mk (stripL l), none, false)
  | some (name, ty) =>
    let tyS := stripL ty
    let optionalSuffix := ", optional".data
    if optionalSuffix.isSuffixOf tyS then
      (String.mk (stripL name),
       some (String.mk (tyS.take (tyS.length - optionalSuffix.length))),
       true)
    else if tyS = "optional".data then
      (String.mk (stripL name), none, true)
    else
      (String.mk (stripL name), some (String.mk tyS), false)

/-- Parse one section block into meta entries. -/
def parseBlock (key : String) (block : List Line) : List DocstringMeta :=
  let blockC := dropLeadingEmpty (dropTrailingEmpty (dedentBlock block))
  if key = "param" ∨ key = "other_param" ∨ key = "attribute" then
    (groupTokens (fun l => l ≠ [] && lineIndent l = 0) blockC).map (fun g =>
      let nto := parseParamHead g.1
      .param [key, nto.1] (some (String.mk (joinL (cleanConts g.2)))) nto.1
        nto.2.1 nto.2.2 none)
  else if key = "returns" ∨ key = "yields" then
    (groupTokens (fun l => l ≠ [] && lineIndent l = 0) blockC).map (fun g =>
      let nto := parseParamHead g.1
      .returns [key] (some (String.mk (joinL (cleanConts g.2))))
        (match nto.2.1 with | some t => some t | none => some nto.1)
        (key = "yields"))
  else if key = "raises" then
    (groupTokens (fun l => l ≠ [] && lineIndent l = 0) blockC).map (fun g =>
      .raises [key] (some (String.mk (joinL (cleanConts g.2))))
        (some (String.mk (stripL g.1))))
  else
    match blockC with
    | [] => []
    | _ => [.meta [key] (some (String.mk (joinL blockC)))]

/-- The remaining lines after the first: used to walk section regions. -/
def parseSections : List (Line × List Line) → List DocstringMeta
  | [] => []
  | (title, block) :: rest =>
    (match SECTIONS.find? (fun s => rstripL title = s.1.data) with
     | some s => parseBlock s.2 block
     | none => []) ++ parseSections rest

/-- Fuelled worker for `sectionGroups`; the fuel only ever needs to cover
the number of remaining lines, since each step consumes at least one. -/
def sectionGroupsF : Nat → List Line → List (Line × List Line)
  | 0, _ => []
  | _, [] => []
  | fuel + 1, title :: rest =>
    let split := splitAtHeader rest.tail
    (title, split.1) :: sectionGroupsF fuel split.2

/-- Group the meta region (starting at an underlined header) into
`(title, block)` pairs; the `-`-underline after each title is dropped. -/
def sectionGroups (ls : List Line) : List (Line × List Line) :=
  sectionGroupsF ls.length ls

/-- Numpydoc `parse(text)`. -/
def parse (text : String) : Except ParseError Docstring :=
  let lines := cleandocLines (splitLinesStr text)
  let split := splitAtHeader lines
  let parts := splitDesc (descChunk split.1 split.2)
  .ok { shortDescription := parts.short
        longDescription := parts.long
        blankAfterShortDescription := parts.blankShort
        blankAfterLongDescription := parts.blankLong
        style := some .numpydoc
        meta := parseSections (sectionGroups split.2) }

/-! ### Numpydoc composer -/

/-- A title line with its `-` underline. -/
def underlined (title : String) : List Line :=
  [title.data, List.replicate title.length '-']

/-- Entry lines for one meta entry inside a numpydoc section. -/
def entryLines : DocstringMeta → List Line
  | .param _ desc argName typeName isOptional _ =>
    (argName.data ++
      (match typeName with
       | some t => (" : " ++ t ++ (if isOptional then ", optional" else "")).data
       | none => (if isOptional then " : optional".data else []))) ::
    Google.indentLines "    " (splitChar '\n' (desc.getD "").data)
  | .returns _ desc typeName _ =>
    (match typeName with
     | some t => [t.data]
     | none => []) ++
    Google.indentLines "    " (splitChar '\n' (desc.getD "").data)
  | .raises _ desc typeName =>
    (match typeName with
     | some t => [t.data]
     | none => []) ++
    Google.indentLines "    " (splitChar '\n' (desc.getD "").data)
  | .meta _ desc =>
    splitChar '\n' (desc.getD "").data

/-- A numpydoc section block, absent when there are no entries. -/
def sectionBlock (title : String) (entries : List DocstringMeta) :
    List (List Line) :=
  match entries with
  | [] => []
  | _ => [underlined title ++ entries.flatMap entryLines]

/-- The ordered section blocks of the Numpydoc composer: Parameters,
Returns, Yields, Raises, then generic meta entries in encounter order. -/
def composeSections (d : Docstring) : List (List Line) :=
  sectionBlock "Parameters" (d.meta.filter Google.isParamMeta) ++
  sectionBlock "Returns" (d.meta.filter Google.isReturnsMeta) ++
  sectionBlock "Yields" (d.meta.filter Google.isYieldsMeta) ++
  sectionBlock "Raises" (d.meta.filter Google.isRaisesMeta) ++
  (d.meta.filter Google.isGenericMeta).map (fun m =>
    underlined (Google.genericTitle
      (match m with | .meta args _ => args | _ => [])) ++ entryLines m)

/-- Numpydoc `compose(docstring)`. -/
def compose (d : Docstring) : String :=
  String.mk (joinL (descLines d ++ Google.joinBlocks (composeSections d)))

end Numpydoc

/-! ## Autodetecting dispatcher and top-level compose

Modelled from the spec: sections 4.4, 6 and 7 — explicit styles invoke
their parser directly, `AUTO` tries each registered style parser in the
fixed priority order REST, GOOGLE, NUMPYDOC, EPYDOC, returning the first
successful result and raising a `ParseError` only once every style has
failed; `compose` fails with a `ValueError`-kind configuration error when
the resolved style is indeterminate; `docstring_parser/base_parser.py` is
not shipped in `src/`. -/
namespace Base

/-- The registered style-to-parse-function mapping (`_STYLE_MAP`). -/
def STYLE_MAP : List (DocstringStyle × (String → Except ParseError Docstring)) :=
  [(.rest, Rest.parse), (.google, Google.parse),
   (.numpydoc, Numpydoc.parse), (.epydoc, Epydoc.parse)]

/-- Try each registered parser in priority order; per-style `ParseError`s
are soft failures, and only when every style has failed is a `ParseError`
raised to the caller. -/
def dispatchAuto
    (parsers : List (DocstringStyle × (String → Except ParseError Docstring)))
    (text : String) : Except ParseError Docstring :=
  match parsers with
  | [] => .error ⟨"Failed to parse docstring with any style."⟩
  | (_, p) :: rest =>
    match p text with
    | .ok d => .ok d
    | .error _ => dispatchAuto rest text

/-- Top-level `parse(text, style)`. -/
def parse (text : String) (style : DocstringStyle) :
    Except ParseError Docstring :=
  match style with
  | .rest => Rest.parse text
  | .google => Google.parse text
  | .numpydoc => Numpydoc.parse text
  | .epydoc => Epydoc.parse text
  | .auto => dispatchAuto STYLE_MAP text

/-- Configuration error kind used only by the compose side. -/
inductive ComposeError
  | valueError (msg : String)
deriving DecidableEq

/-- Top-level `compose(docstring, style)`: with `AUTO` the docstring's own
style is used; an indeterminate resolved style is a configuration error
whose message names the detected style (`None`) and the requested style. -/
def compose (d : Docstring) (style : DocstringStyle) :
    Except ComposeError String :=
  let actual := if style = .auto then d.style else some style
  match actual with
  | none =>
    .error (.valueError
      ("Detected docstring.style of `None` and requested style of `"
        ++ style.styleName ++ "`."))
  | some .auto =>
    .error (.valueError
      ("Detected docstring.style of `AUTO` and requested style of `"
        ++ style.styleName ++ "`."))
  | some .rest => .ok (Rest.compose d)
  | some .google => .ok (Google.compose d)
  | some .numpydoc => .ok (Numpydoc.compose d)
  | some .epydoc => .ok (Epydoc.compose d)

end Base

end DP

/-! ## `pymend/file_parser.py`: signature extraction

Embedding of `AstAnalyzer.get_padded_args_defaults`,
`AstAnalyzer.get_parameters_sig` and `AstAnalyzer.handle_function_signature`
(src/pymend/file_parser.py lines 451-471, 550-604, 626-643).  AST nodes are
embedded with annotations and defaults already unparsed to source text
(`ast_unparse` is the identity of this representation, with
`ast_unparse None = None`).  The only `FixerSettings` field these functions
consult is `ignore_unused_arguments`. -/
namespace FP

/-- `pymend.types.Parameter` (the fields used by the signature path). -/
structure Parameter where
  arg_name : String
  type_name : Option String
  default : Option String
deriving DecidableEq

/-- An `ast.arg`: argument name and unparsed annotation. -/
structure PyArg where
  arg : String
  annot : Option String
deriving DecidableEq

/-- An `ast.arguments` node, with defaults already unparsed. -/
structure PyArguments where
  posonlyargs : List PyArg
  args : List PyArg
  vararg : Option PyArg
  kwonlyargs : List PyArg
  kw_defaults : List (Option String)
  kwarg : Option PyArg
  defaults : List String
deriving DecidableEq

/-- An `ast.FunctionDef`/`ast.AsyncFunctionDef` node (the parts used by
`handle_function_signature`): its arguments and unparsed return
annotation. -/
structure PyFunctionDef where
  args : PyArguments
  returns : Option String
deriving DecidableEq

/-- `pymend.types.FunctionSignature`. -/
structure FunctionSignature where
  params : List Parameter
  return_type : Option String
deriving DecidableEq

/-- `get_padded_args_defaults`: left-pad the positional defaults with
`None` to the length of `args`. -/
def get_padded_args_defaults (a : PyArguments) : List (Option String) :=
  List.replicate (a.args.length - a.defaults.length) none ++ a.defaults.map some

/-- The `arguments` list assembled by `get_parameters_sig` before the
unused-argument filter: positional-only args, general args zipped with
their padded defaults, `*vararg`, keyword-only args zipped with their
defaults, `**kwarg`. -/
def allArguments (a : PyArguments) : List Parameter :=
  (a.posonlyargs.map (fun arg => ⟨arg.arg, arg.annot, none⟩)) ++
  ((a.args.zip (get_padded_args_defaults a)).map
    (fun p => ⟨p.1.arg, p.1.annot, p.2⟩)) ++
  (match a.vararg with
   | some v => [⟨"*" ++ v.arg, v.annot, none⟩]
   | none => []) ++
  ((a.kwonlyargs.zip a.kw_defaults).map (fun p => ⟨p.1.arg, p.1.annot, p.2⟩)) ++
  (match a.kwarg with
   | some k => [⟨"**" ++ k.arg, k.annot, none⟩]
   | none => [])

/-- Does a parameter name start with an underscore
(`arg_name.startswith("_")`)? -/
def startsWithUnderscore (s : String) : Bool :=
  match s.data with
  | c :: _ => c = '_'
  | [] => false

/-- `get_parameters_sig`: the assembled arguments, with arguments whose
name starts with `_` filtered out when `ignore_unused_arguments` is set. -/
def get_parameters_sig (ignore_unused_arguments : Bool) (a : PyArguments) :
    List Parameter :=
  if ignore_unused_arguments then
    (allArguments a).filter (fun p => !startsWithUnderscore p.arg_name)
  else
    allArguments a

/-- `handle_function_signature`: pop the leading parameter when it is named
`self`, and pair the rest with the unparsed return annotation. -/
def handle_function_signature (ignore_unused_arguments : Bool)
    (func : PyFunctionDef) : FunctionSignature :=
  let parameters := get_parameters_sig ignore_unused_arguments func.args
  let parameters' :=
    match parameters with
    | p :: rest => if p.arg_name = "self" then rest else p :: rest
    | [] => []
  ⟨parameters', func.returns⟩

/-- The parameter list claim C10 predicts, following the claim's words:
the first *signature* parameter is removed exactly when it is named
`self`; every other parameter (including a non-leading `self`) is kept
with its order and annotation. -/
def claimPredictedParameters (a : PyArguments) : List Parameter :=
  match allArguments a with
  | p :: rest => if p.arg_name = "self" then rest else p :: rest
  | [] => []

end FP

namespace DP

/-! ## A class of well-formed epydoc docstrings

For the round-trip property we characterize a class of already-normalized
epydoc docstrings: a short description line, an optional blank line, and a
non-empty run of generic one-line `@tag: description` fields (generic tags
round-trip verbatim; recognized tags are canonicalized by the composer, so
they are excluded from the class). -/

/-- A well-formed short-description line: non-empty, not starting with
whitespace or `@`, and free of newlines. -/
def goodShort (s : String) : Bool :=
  (match s.data with
   | c :: _ => !isWs c && decide (c ≠ '@')
   | [] => false) && decide ('\n' ∉ s.data)

/-- A well-formed generic tag: non-empty, free of whitespace, colons and
newlines, and not one of the recognized epydoc keywords. -/
def goodTag (t : String) : Bool :=
  decide (t.data ≠ []) &&
  t.data.all (fun c => !isWs c && decide (c ≠ ':') && decide (c ≠ '\n')) &&
  decide (t ∉ Epydoc.recognizedKeywords)

/-- A well-formed one-line field description: non-empty, not starting with
whitespace, and free of newlines. -/
def goodDesc (d : String) : Bool :=
  (match d.data with
   | c :: _ => !isWs c
   | [] => false) && decide ('\n' ∉ d.data)

/-- The text line of a generic epydoc field `@tag: description`. -/
def metaLineOf (p : String × String) : Line :=
  '@' :: (p.1.data ++ ':' :: ' ' :: p.2.data)

/-- Assemble a docstring text from a short description, an optional blank
separator line and generic epydoc fields. -/
def buildEpydoc (s : String) (blank : Bool) (ms : List (String × String)) :
    String :=
  String.mk (joinL (s.data :: ((if blank then [[]] else []) ++ ms.map metaLineOf)))

/-- Membership in the well-formed class: the text is built from a good
short line, an optional blank line, and a non-empty list of good generic
fields. -/
def wellFormedEpydoc (text : String) : Prop :=
  ∃ s blank ms, text = buildEpydoc s blank ms ∧ goodShort s = true ∧
    ms ≠ [] ∧ ms.all (fun p => goodTag p.1 && goodDesc p.2) = true

/-- Did a parse fail (raise `ParseError`)? -/
def parseFailed (r : Except ParseError Docstring) : Bool :=
  match r with
  | .ok _ => false
  | .error _ => true

/-- The malformed-ReST input of the autodetection claims. -/
def c2src : String := ":param 3 + 3 a: a param"

/-- The source text of the all-parsers-fail test
(`test_autodetection_error`). -/
def allFailSrc : String :=
  "\n    Does something useless\n\n    :param 3 + 3 a: a param\n    "

/-- The patched registry of `test_autodetection_error`: every registered
style resolves to the ReST parse function, which fails on `allFailSrc`. -/
def patchedStyleMap :
    List (DocstringStyle × (String → Except ParseError Docstring)) :=
  [(.rest, Rest.parse), (.epydoc, Rest.parse)]

/-- The hand-built docstring of the epydoc `test_compose_docstring` test:
a Raises entry and a Returns entry, both with no type and no
description. -/
def epydocBareDoc : Docstring :=
  ⟨none, none, false, false, none,
   [.raises [] none none, .returns [] none none false]⟩

/-- The hand-built docstring of the google `test_compose_docstring` test:
an empty Raises entry plus two generic meta entries, the second with an
empty description. -/
def googleBareDoc : Docstring :=
  ⟨none, none, false, false, none,
   [.raises [] none none, .meta ["meta"] (some "Some description"),
    .meta ["meta"] (some "")]⟩

/-- A docstring containing a Yields entry before a Returns entry, used to
witness the Returns-before-Yields composition ordering. -/
def yieldsFirstDoc : Docstring :=
  ⟨some "Short description", none, true, false, some .google,
   [.returns ["yields"] (some "y desc") (some "int") true,
    .returns ["returns"] (some "r desc") (some "str") false]⟩

end DP


/-! # Claim theorems -/

open DP FP

/-- C2: For the input `:param 3 + 3 a: a param` (a malformed ReST field
name), parsing with the explicitly requested REST style raises a
ParseError, while parsing the same input with style AUTO succeeds and
produces a Docstring whose style attribute equals GOOGLE. -/
theorem autodetect_rest_error_google_fallback :
    DP.Base.parse DP.c2src DP.DocstringStyle.rest =
      Except.error ⟨"Unexpected number of arguments in `:param 3 + 3 a: a param`."⟩ ∧
    DP.Base.parse DP.c2src DP.DocstringStyle.auto =
      Except.ok ⟨some ":param 3 + 3 a: a param", none, false, false,
        some DP.DocstringStyle.google, []⟩ ∧
    (⟨some ":param 3 + 3 a: a param", none, false, false,
        some DP.DocstringStyle.google, []⟩ : DP.Docstring).style =
      some DP.DocstringStyle.google := by
  refine ⟨by decide, by decide, rfl⟩

/-- C4: Calling compose on a freshly constructed empty Docstring (style
unset, i.e. `None`) with requested style AUTO raises a configuration
error of ValueError kind whose message mentions both `None` and `AUTO`. -/
theorem compose_empty_auto_value_error :
    DP.Base.compose DP.Docstring.empty DP.DocstringStyle.auto =
      Except.error (DP.Base.ComposeError.valueError
        "Detected docstring.style of `None` and requested style of `AUTO`.") ∧
    (∃ a b, "Detected docstring.style of `None` and requested style of `AUTO`." =
      a ++ "None" ++ b) ∧
    (∃ a b, "Detected docstring.style of `None` and requested style of `AUTO`." =
      a ++ "AUTO" ++ b) := by
  refine ⟨by decide,
    ⟨"Detected docstring.style of `", "` and requested style of `AUTO`.", by decide⟩,
    ⟨"Detected docstring.style of `None` and requested style of `", "`.", by decide⟩⟩

/-- C5: For every one of the four style parsers, `parse ""` and
`parse "\n"` succeed and yield a Docstring with no short description, no
long description, and an empty meta sequence. -/
theorem parse_empty_all_styles :
    DP.Rest.parse "" = Except.ok (DP.emptyWithStyle .rest) ∧
    DP.Rest.parse "\n" = Except.ok (DP.emptyWithStyle .rest) ∧
    DP.Google.parse "" = Except.ok (DP.emptyWithStyle .google) ∧
    DP.Google.parse "\n" = Except.ok (DP.emptyWithStyle .google) ∧
    DP.Numpydoc.parse "" = Except.ok (DP.emptyWithStyle .numpydoc) ∧
    DP.Numpydoc.parse "\n" = Except.ok (DP.emptyWithStyle .numpydoc) ∧
    DP.Epydoc.parse "" = Except.ok (DP.emptyWithStyle .epydoc) ∧
    DP.Epydoc.parse "\n" = Except.ok (DP.emptyWithStyle .epydoc) := by
  refine ⟨by decide, by decide, by decide, by decide, by decide, by decide,
    by decide, by decide⟩

/-- C6: Google MULTIPLE-section entry parsing preserves relative
indentation and strips base indentation: parsing
`"Args:\n    spam: asd\n        1\n            2\n        3"` yields
exactly one Param meta entry named `spam` whose description is
`"asd\n1\n    2\n3"`. -/
theorem google_multiple_section_indentation :
    DP.Google.parse "Args:\n    spam: asd\n        1\n            2\n        3" =
      Except.ok ⟨none, none, false, false, some DP.DocstringStyle.google,
        [DP.DocstringMeta.param ["param", "spam"] (some "asd\n1\n    2\n3")
          "spam" none false none]⟩ := by
  decide

/-- C8: Epydoc parsing treats unrecognized tags as generic meta rather
than an error — `@sthstrange: desc` parses successfully, and an
unrecognized multi-word tag line like `@meta ene due rabe: asd` parses to
a generic meta entry carrying all its words as args — and raises
ParseError exactly when an `@tag` line cannot be tokenized into at least a
tag: a bare `@`, or a tag line with no following colon and no recognized
multi-word form (`@param herp derp` has no colon; `@param with too many
args: desc` has a colon but its recognized tag `param` admits no such
multi-word form). -/
theorem epydoc_broken_meta :
    DP.Epydoc.parse "@sthstrange: desc" =
      Except.ok ⟨none, none, false, false, some DP.DocstringStyle.epydoc,
        [DP.DocstringMeta.meta ["sthstrange"] (some "desc")]⟩ ∧
    DP.Epydoc.parse "@meta ene due rabe: asd" =
      Except.ok ⟨none, none, false, false, some DP.DocstringStyle.epydoc,
        [DP.DocstringMeta.meta ["meta", "ene", "due", "rabe"] (some "asd")]⟩ ∧
    DP.Epydoc.parse
        "\n        Short description\n\n        @meta ene due rabe: asd\n        " =
      Except.ok ⟨some "Short description", none, true, false,
        some DP.DocstringStyle.epydoc,
        [DP.DocstringMeta.meta ["meta", "ene", "due", "rabe"] (some "asd")]⟩ ∧
    DP.Epydoc.parse "@" = Except.error ⟨"Expected a colon in `@`."⟩ ∧
    DP.Epydoc.parse "@param herp derp" =
      Except.error ⟨"Expected a colon in `@param herp derp`."⟩ ∧
    DP.Epydoc.parse "@param with too many args: desc" =
      Except.error
        ⟨"Unexpected number of arguments in `@param with too many args: desc`."⟩ := by
  refine ⟨by decide, by decide, by decide, by decide, by decide, by decide⟩

/-- C9: A meta entry with zero description content composes back as its
bare trailing marker with no following text: for Epydoc a Raises entry
with empty type and description composes to exactly `"@raise:"` (the
all-empty Returns entry contributing nothing), and for Google a generic
meta entry with empty description composes to its bare header `"Meta:"`
with no body text after it. -/
theorem compose_bare_marker_empty_description :
    DP.Epydoc.compose DP.epydocBareDoc = "@raise:" ∧
    DP.Google.compose DP.googleBareDoc =
      "Raises:\n\n\nMeta:\n    Some description\n\nMeta:" := by
  refine ⟨by decide, by decide⟩

/-- C10 (counterexample): the claim as stated fails when the analyzer's
`ignore_unused_arguments` setting is enabled — for a function
`def f(_x, self, y)` the underscore-named leading parameter is filtered
out first, after which the (non-leading) `self` has become the list head
and is removed, even though the first signature parameter was not named
`self` and the claim requires every non-leading `self` to be kept. -/
theorem handle_function_signature_claim_counterexample :
    (FP.handle_function_signature true
        ⟨⟨[], [⟨"_x", none⟩, ⟨"self", none⟩, ⟨"y", none⟩],
          none, [], [], none, []⟩, none⟩).params ≠
      FP.claimPredictedParameters
        ⟨[], [⟨"_x", none⟩, ⟨"self", none⟩, ⟨"y", none⟩],
          none, [], [], none, []⟩ := by
  decide

/-- C10 (amended): with the `ignore_unused_arguments` setting disabled,
`handle_function_signature` removes the first signature parameter exactly
when that parameter is named `self`; a leading parameter with any other
name, and every non-leading parameter named `self`, is kept, and all kept
parameters retain their relative order, annotations and defaults. -/
theorem handle_function_signature_strips_leading_self
    (a : FP.PyArguments) (r : Option String) :
    (FP.handle_function_signature false ⟨a, r⟩).params =
      FP.claimPredictedParameters a := by
  rfl

/-- C7: For every Docstring model that contains both a Returns meta entry
and a Yields meta entry, composing it in Google or Numpydoc style emits
the Returns section immediately before the Yields section — regardless of
the order in which they appeared in the parsed source — since both
composers group meta entries into the fixed section order. -/
theorem compose_returns_before_yields (d : DP.Docstring)
    (hr : ∃ m ∈ d.meta, DP.Google.isReturnsMeta m = true)
    (hy : ∃ m ∈ d.meta, DP.Google.isYieldsMeta m = true) :
    (∃ pre post rb yb,
        DP.Google.composeSections d = pre ++ rb :: yb :: post ∧
        rb.head? = some ("Returns:").data ∧
        yb.head? = some ("Yields:").data) ∧
    (∃ pre post rb yb,
        DP.Numpydoc.composeSections d = pre ++ rb :: yb :: post ∧
        rb.head? = some ("Returns").data ∧
        yb.head? = some ("Yields").data) := by
  obtain ⟨mr, hmr, hpr⟩ := hr
  obtain ⟨my, hmy, hpy⟩ := hy
  have hR : d.meta.filter DP.Google.isReturnsMeta ≠ [] :=
    List.ne_nil_of_mem (List.mem_filter.mpr ⟨hmr, hpr⟩)
  have hY : d.meta.filter DP.Google.isYieldsMeta ≠ [] :=
    List.ne_nil_of_mem (List.mem_filter.mpr ⟨hmy, hpy⟩)
  constructor
  · cases hRl : d.meta.filter DP.Google.isReturnsMeta with
    | nil => exact absurd hRl hR
    | cons r rs =>
      cases hYl : d.meta.filter DP.Google.isYieldsMeta with
      | nil => exact absurd hYl hY
      | cons y ys =>
        refine ⟨DP.Google.sectionBlock "Args" (d.meta.filter DP.Google.isParamMeta),
          DP.Google.sectionBlock "Raises" (d.meta.filter DP.Google.isRaisesMeta) ++
            (d.meta.filter DP.Google.isGenericMeta).map (fun m =>
              (DP.Google.genericTitle
                (match m with | .meta args _ => args | _ => [])).data
                :: DP.Google.entryLines m),
          ("Returns:").data :: (r :: rs).flatMap DP.Google.entryLines,
          ("Yields:").data :: (y :: ys).flatMap DP.Google.entryLines,
          ?_, rfl, rfl⟩
        simp only [DP.Google.composeSections, hRl, hYl, DP.Google.sectionBlock]
        simp
  · cases hRl : d.meta.filter DP.Google.isReturnsMeta with
    | nil => exact absurd hRl hR
    | cons r rs =>
      cases hYl : d.meta.filter DP.Google.isYieldsMeta with
      | nil => exact absurd hYl hY
      | cons y ys =>
        refine ⟨DP.Numpydoc.sectionBlock "Parameters" (d.meta.filter DP.Google.isParamMeta),
          DP.Numpydoc.sectionBlock "Raises" (d.meta.filter DP.Google.isRaisesMeta) ++
            (d.meta.filter DP.Google.isGenericMeta).map (fun m =>
              DP.Numpydoc.underlined (DP.Google.genericTitle
                (match m with | .meta args _ => args | _ => [])) ++
                DP.Numpydoc.entryLines m),
          DP.Numpydoc.underlined "Returns" ++ (r :: rs).flatMap DP.Numpydoc.entryLines,
          DP.Numpydoc.underlined "Yields" ++ (y :: ys).flatMap DP.Numpydoc.entryLines,
          ?_, rfl, rfl⟩
        simp only [DP.Numpydoc.composeSections, hRl, hYl, DP.Numpydoc.sectionBlock]
        simp

/-- Witness for C7 at a concrete docstring whose Yields entry precedes its
Returns entry. -/
theorem compose_returns_before_yields_witness :
    (∃ pre post rb yb,
        DP.Google.composeSections DP.yieldsFirstDoc = pre ++ rb :: yb :: post ∧
        rb.head? = some ("Returns:").data ∧
        yb.head? = some ("Yields:").data) ∧
    (∃ pre post rb yb,
        DP.Numpydoc.composeSections DP.yieldsFirstDoc = pre ++ rb :: yb :: post ∧
        rb.head? = some ("Returns").data ∧
        yb.head? = some ("Yields").data) :=
  compose_returns_before_yields DP.yieldsFirstDoc
    ⟨DP.DocstringMeta.returns ["returns"] (some "r desc") (some "str") false,
      by decide, by decide⟩
    ⟨DP.DocstringMeta.returns ["yields"] (some "y desc") (some "int") true,
      by decide, by decide⟩

/-- C3: The autodetecting dispatcher tries the registered style parsers in
their fixed priority order and returns the first successful result: if
every parser before some entry fails on the text and that entry succeeds,
its result is returned; and for every input on which every registered
style parser fails, the dispatcher raises a ParseError to its caller
(never a partial model).  `parse` with style AUTO is exactly the
dispatcher run on the registered style map, whose order is REST, GOOGLE,
NUMPYDOC, EPYDOC. -/
theorem dispatcher_first_success_all_fail :
    (∀ (pre rest :
          List (DP.DocstringStyle × (String → Except DP.ParseError DP.Docstring)))
        (entry :
          DP.DocstringStyle × (String → Except DP.ParseError DP.Docstring))
        (text : String) (d : DP.Docstring),
        (∀ q ∈ pre, DP.parseFailed (q.2 text) = true) →
        entry.2 text = Except.ok d →
        DP.Base.dispatchAuto (pre ++ entry :: rest) text = Except.ok d) ∧
    (∀ (parsers :
          List (DP.DocstringStyle × (String → Except DP.ParseError DP.Docstring)))
        (text : String),
        (∀ q ∈ parsers, DP.parseFailed (q.2 text) = true) →
        ∃ e, DP.Base.dispatchAuto parsers text = Except.error e) ∧
    (∀ text : String,
        DP.Base.parse text DP.DocstringStyle.auto =
          DP.Base.dispatchAuto DP.Base.STYLE_MAP text) := by
  refine ⟨?_, ?_, fun _ => rfl⟩
  · intro pre rest entry text d hpre hok
    induction pre with
    | nil =>
      simp only [List.nil_append, DP.Base.dispatchAuto]
      rw [hok]
    | cons q pre ih =>
      have hq : DP.parseFailed (q.2 text) = true := hpre q (by simp)
      simp only [List.cons_append, DP.Base.dispatchAuto]
      cases hqt : q.2 text with
      | ok dq => rw [hqt] at hq; simp [DP.parseFailed] at hq
      | error e =>
        exact ih (fun p hp => hpre p (by simp [hp]))
  · intro parsers text hall
    induction parsers with
    | nil => exact ⟨_, rfl⟩
    | cons q rest ih =>
      have hq : DP.parseFailed (q.2 text) = true := hall q (by simp)
      simp only [DP.Base.dispatchAuto]
      cases hqt : q.2 text with
      | ok dq => rw [hqt] at hq; simp [DP.parseFailed] at hq
      | error e =>
        exact ih (fun p hp => hall p (by simp [hp]))

/-- Witness for C3: with the registered map, ReST succeeds first on a
plain one-line docstring and its result is returned; with the patched
registry of `test_autodetection_error` (both entries the failing ReST
parse function) the dispatcher errors on the test's source text. -/
theorem dispatcher_first_success_all_fail_witness :
    DP.Base.dispatchAuto
        ([] ++ (DP.DocstringStyle.rest, DP.Rest.parse) ::
          [(DP.DocstringStyle.google, DP.Google.parse),
           (DP.DocstringStyle.numpydoc, DP.Numpydoc.parse),
           (DP.DocstringStyle.epydoc, DP.Epydoc.parse)]) "Short description" =
      Except.ok ⟨some "Short description", none, false, false,
        some DP.DocstringStyle.rest, []⟩ ∧
    (∃ e, DP.Base.dispatchAuto DP.patchedStyleMap DP.allFailSrc =
      Except.error e) :=
  ⟨dispatcher_first_success_all_fail.1 [] _ _ "Short description" _
      (fun q hq => absurd hq (List.not_mem_nil q)) (by decide),
   dispatcher_first_success_all_fail.2.1 DP.patchedStyleMap DP.allFailSrc
      (by
        intro q hq
        rcases List.mem_cons.mp hq with h | h
        · rw [h]; decide
        · rcases List.mem_cons.mp h with h2 | h2
          · rw [h2]; decide
          · exact absurd h2 (List.not_mem_nil q))⟩

/-! ## Helper lemmas for the epydoc round-trip claim -/

theorem strMk_data (s : String) : String.mk s.data = s := rfl

theorem splitCharAux_not_mem {c : Char} {l : List Char} (h : c ∉ l) :
    ∀ acc, DP.splitCharAux c l acc = [acc.reverse ++ l] := by
  induction l with
  | nil => intro acc; simp [DP.splitCharAux]
  | cons x xs ih =>
    intro acc
    have hxc : ¬(x = c) := fun hx => h (hx ▸ List.mem_cons_self x xs)
    have hxs : c ∉ xs := fun hm => h (List.mem_cons_of_mem _ hm)
    simp [DP.splitCharAux, hxc, ih hxs]

theorem splitCharAux_append {c : Char} {l : List Char} (h : c ∉ l)
    (r : List Char) :
    ∀ acc, DP.splitCharAux c (l ++ c :: r) acc =
      (acc.reverse ++ l) :: DP.splitCharAux c r [] := by
  induction l with
  | nil => intro acc; simp [DP.splitCharAux]
  | cons x xs ih =>
    intro acc
    have hxc : ¬(x = c) := fun hx => h (hx ▸ List.mem_cons_self x xs)
    have hxs : c ∉ xs := fun hm => h (List.mem_cons_of_mem _ hm)
    simp [DP.splitCharAux, hxc, ih hxs]

theorem splitChar_not_mem {c : Char} {l : List Char} (h : c ∉ l) :
    DP.splitChar c l = [l] := by
  simpa using splitCharAux_not_mem h []

theorem splitChar_joinL {L : List DP.Line} (hne : L ≠ [])
    (h : ∀ l ∈ L, '\n' ∉ l) : DP.splitChar '\n' (DP.joinL L) = L := by
  induction L with
  | nil => exact absurd rfl hne
  | cons a L ih =>
    cases L with
    | nil =>
      have := splitChar_not_mem (h a (by simp))
      simpa [DP.joinL, DP.joinSep] using this
    | cons b L2 =>
      have hjoin : DP.joinL (a :: b :: L2) = a ++ '\n' :: DP.joinL (b :: L2) := rfl
      rw [DP.splitChar, hjoin, splitCharAux_append (h a (by simp)) _ []]
      have ih2 := ih (by simp) (fun l hl => h l (by simp [hl]))
      rw [DP.splitChar] at ih2
      simp [ih2]

theorem foldl_min_zeros {l : List Nat} (h : ∀ x ∈ l, x = 0) :
    l.foldl min 0 = 0 := by
  induction l with
  | nil => rfl
  | cons b l ih =>
    have hb : b = 0 := h b (by simp)
    subst hb
    simpa using ih (fun x hx => h x (by simp [hx]))

theorem min?_zeros {xs : List Nat} (hne : xs ≠ []) (h : ∀ x ∈ xs, x = 0) :
    xs.min? = some 0 := by
  cases xs with
  | nil => exact absurd rfl hne
  | cons a l =>
    have ha : a = 0 := h a (by simp)
    subst ha
    have hf : l.foldl min 0 = 0 :=
      foldl_min_zeros (fun x hx => h x (List.mem_cons_of_mem _ hx))
    simp [List.min?, hf]

theorem dropTrailingEmpty_eq {ls : List DP.Line} (h : ls.getLast? ≠ some []) :
    DP.dropTrailingEmpty ls = ls := by
  rcases hrev : ls.reverse with _ | ⟨x, xs⟩
  · have : ls = [] := by simpa using congrArg List.reverse hrev
    simp [this, DP.dropTrailingEmpty]
  · have hx : ls.getLast? = some x := by
      rw [← List.head?_reverse, hrev]; rfl
    have hxe : ¬(x = []) := fun hxx => h (hxx ▸ hx)
    unfold DP.dropTrailingEmpty
    rw [hrev]
    simp only [List.dropWhile_cons, hxe, decide_eq_true_eq, if_neg]
    rw [← hrev]
    simp

theorem cleandoc_fixed {a : DP.Line} {mid : List DP.Line}
    (ha : ∃ c t, a = c :: t ∧ DP.isWs c = false)
    (hmid : ∀ l ∈ mid, l = [] ∨ ∃ c t, l = c :: t ∧ DP.isWs c = false)
    (hsome : ∃ l ∈ mid, l ≠ [])
    (hlast : mid.getLast? ≠ some []) :
    DP.cleandocLines (a :: mid) = a :: mid := by
  obtain ⟨c, t, hat, hcw⟩ := ha
  have hlstrip : DP.lstripL a = a := by
    rw [hat]; simp [DP.lstripL, List.dropWhile_cons, hcw]
  have hmargin : DP.marginOf mid = some 0 := by
    unfold DP.marginOf
    apply min?_zeros
    · obtain ⟨l, hlm, hlne⟩ := hsome
      rcases hmid l hlm with rfl | ⟨c2, t2, rfl, hc2⟩
      · exact absurd rfl hlne
      · have hcontent : DP.lineContent (c2 :: t2) ≠ [] := by
          simp [DP.lineContent, List.dropWhile_cons, hc2]
        have : (c2 :: t2) ∈ mid.filter (fun l => decide (DP.lineContent l ≠ [])) :=
          List.mem_filter.mpr ⟨hlm, by simpa using hcontent⟩
        intro hmap
        rw [List.map_eq_nil_iff] at hmap
        rw [hmap] at this
        exact absurd this (List.not_mem_nil _)
    · intro x hx
      obtain ⟨l, hl, rfl⟩ := List.mem_map.mp hx
      have hlm := List.mem_filter.mp hl
      rcases hmid l hlm.1 with rfl | ⟨c2, t2, rfl, hc2⟩
      · simp [DP.lineContent] at hlm
      · simp [DP.lineIndent, List.takeWhile_cons, hc2]
  have hmid_ne : mid ≠ [] := by
    obtain ⟨l, hlm, _⟩ := hsome
    exact List.ne_nil_of_mem hlm
  simp only [DP.cleandocLines]
  rw [hmargin]
  simp only [List.drop_zero, List.map_id_fun', id]
  rw [hlstrip]
  rw [dropTrailingEmpty_eq (by
    have h2 := List.getLast?_append_of_ne_nil [a] hmid_ne
    simp only [List.cons_append, List.nil_append] at h2
    rw [h2]; exact hlast)]
  have hane : ¬(a = []) := by rw [hat]; simp
  simp [DP.dropLeadingEmpty, List.dropWhile_cons, hane]

theorem splitAtMarker_eq (isM : DP.Line → Bool) (pre post : List DP.Line)
    (hpre : ∀ l ∈ pre, isM l = false)
    (hpost : ∀ hd, post.head? = some hd → isM hd = true) :
    DP.splitAtMarker isM (pre ++ post) = (pre, post) := by
  induction pre with
  | nil =>
    cases post with
    | nil => rfl
    | cons hd tl =>
      have := hpost hd rfl
      simp [DP.splitAtMarker, this]
  | cons l pre ih =>
    have hl : isM l = false := hpre l (by simp)
    simp only [List.cons_append, DP.splitAtMarker, hl, Bool.false_eq_true,
      if_false]
    have hih := ih (fun x hx => hpre x (by simp [hx]))
    simp only [List.append_eq]
    rw [hih]

theorem groupTokens_all_start (isStart : DP.Line → Bool) (ls : List DP.Line)
    (h : ∀ l ∈ ls, isStart l = true) :
    DP.groupTokens isStart ls = ls.map (fun l => (l, [])) := by
  suffices hs : ls.foldr
      (fun l acc =>
        if isStart l then ((l, acc.2) :: acc.1, ([] : List DP.Line))
        else (acc.1, l :: acc.2))
      ([], []) = (ls.map (fun l => (l, [])), []) by
    unfold DP.groupTokens
    rw [hs]
  induction ls with
  | nil => rfl
  | cons l ls ih =>
    have hl : isStart l = true := h l (by simp)
    simp only [List.foldr_cons, ih (fun x hx => h x (by simp [hx])), hl,
      if_true, List.map_cons]

theorem mapM_ok_of_forall {α β : Type} {f : α → Except DP.ParseError β}
    {g : α → β} (l : List α) (h : ∀ a ∈ l, f a = Except.ok (g a)) :
    l.mapM f = Except.ok (l.map g) := by
  induction l with
  | nil => rfl
  | cons a l ih =>
    rw [List.mapM_cons, h a (by simp), ih (fun b hb => h b (by simp [hb]))]
    rfl

theorem filterMap_eq_map_of {α β : Type} {f : α → Option β} {g : α → β}
    (l : List α) (h : ∀ a ∈ l, f a = some (g a)) :
    l.filterMap f = l.map g := by
  induction l with
  | nil => rfl
  | cons a l ih =>
    rw [List.filterMap_cons, h a (by simp),
      ih (fun b hb => h b (by simp [hb]))]
    rfl

theorem flatMap_singletons {α β : Type} {f : α → List β} {g : α → β}
    (l : List α) (h : ∀ a ∈ l, f a = [g a]) :
    l.flatMap f = l.map g := by
  induction l with
  | nil => rfl
  | cons a l ih =>
    rw [List.flatMap_cons, h a (by simp),
      ih (fun b hb => h b (by simp [hb]))]
    rfl

theorem goodShort_spec {s : String} (h : DP.goodShort s = true) :
    (∃ c t, s.data = c :: t ∧ DP.isWs c = false ∧ c ≠ '@') ∧
      '\n' ∉ s.data := by
  unfold DP.goodShort at h
  rcases hsd : s.data with _ | ⟨c, t⟩ <;> rw [hsd] at h
  · simp at h
  · simp only [Bool.and_eq_true, Bool.not_eq_true',
      decide_eq_true_eq] at h
    exact ⟨⟨c, t, rfl, h.1.1, h.1.2⟩, hsd ▸ h.2⟩

theorem goodTag_spec {t : String} (h : DP.goodTag t = true) :
    t.data ≠ [] ∧ (∀ c ∈ t.data, DP.isWs c = false ∧ c ≠ ':' ∧ c ≠ '\n') ∧
      t ∉ DP.Epydoc.recognizedKeywords := by
  unfold DP.goodTag at h
  simp only [Bool.and_eq_true, Bool.not_eq_true',
    decide_eq_true_eq, List.all_eq_true] at h
  exact ⟨h.1.1, fun c hc => ⟨(h.1.2 c hc).1.1, (h.1.2 c hc).1.2, (h.1.2 c hc).2⟩,
    h.2⟩

theorem goodDesc_spec {d : String} (h : DP.goodDesc d = true) :
    (∃ c t, d.data = c :: t ∧ DP.isWs c = false) ∧ '\n' ∉ d.data := by
  unfold DP.goodDesc at h
  rcases hdd : d.data with _ | ⟨c, t⟩ <;> rw [hdd] at h
  · simp at h
  · simp only [Bool.and_eq_true, Bool.not_eq_true', decide_eq_true_eq] at h
    exact ⟨⟨c, t, rfl, h.1⟩, hdd ▸ h.2⟩

theorem breakAtChar_append {c : Char} {l : List Char} (h : c ∉ l)
    (r : List Char) : DP.breakAtChar c (l ++ c :: r) = some (l, r) := by
  induction l with
  | nil => simp [DP.breakAtChar]
  | cons x xs ih =>
    have hxc : ¬(x = c) := fun hx => h (hx ▸ List.mem_cons_self x xs)
    have hxs : c ∉ xs := fun hm => h (List.mem_cons_of_mem _ hm)
    simp [DP.breakAtChar, hxc, ih hxs]

theorem splitWsAux_no {l : List Char} (h : ∀ c ∈ l, DP.isWs c = false) :
    ∀ acc, DP.splitWsAux l acc = [acc.reverse ++ l] := by
  induction l with
  | nil => intro acc; simp [DP.splitWsAux]
  | cons x xs ih =>
    intro acc
    have hx : DP.isWs x = false := h x (by simp)
    have hxs : ∀ c ∈ xs, DP.isWs c = false := fun c hc => h c (by simp [hc])
    simp [DP.splitWsAux, hx, ih hxs]

theorem wordsL_single {l : List Char} (hne : l ≠ [])
    (h : ∀ c ∈ l, DP.isWs c = false) : DP.wordsL l = [l] := by
  unfold DP.wordsL
  rw [splitWsAux_no h []]
  simp [hne]

theorem recognized_mem_iff (x : String) :
    x ∈ DP.Epydoc.recognizedKeywords ↔
      (x ∈ DP.Epydoc.paramKeywords ∨ x ∈ DP.Epydoc.typeKeywords ∨
       x ∈ DP.Epydoc.raiseKeywords ∨ x ∈ DP.Epydoc.returnKeywords ∨
       x ∈ DP.Epydoc.rtypeKeywords ∨ x ∈ DP.Epydoc.yieldKeywords ∨
       x ∈ DP.Epydoc.ytypeKeywords) := by
  unfold DP.Epydoc.recognizedKeywords
  simp [List.mem_append, or_assoc]

theorem parseToken_generic {t d : String} (ht : DP.goodTag t = true)
    (hd : DP.goodDesc d = true) :
    DP.Epydoc.parseToken (DP.metaLineOf (t, d)) [] =
      Except.ok ⟨t, [], d⟩ := by
  obtain ⟨htne, hchars, hmem⟩ := goodTag_spec ht
  obtain ⟨⟨c, dt, hdd, hdw⟩, hdn⟩ := goodDesc_spec hd
  have hcolon : ':' ∉ t.data := fun hm => (hchars _ hm).2.1 rfl
  have htne2 : t.data ≠ [] := htne
  have hnws : ∀ ch ∈ t.data, DP.isWs ch = false := fun ch hc => (hchars ch hc).1
  have hsp : DP.isWs ' ' = true := rfl
  have hlstrip : DP.lstripL (' ' :: d.data) = d.data := by
    rw [hdd]
    simp [DP.lstripL, List.dropWhile_cons, hsp, hdw]
  have hdesc : DP.tokenDesc d.data [] = d := by
    unfold DP.tokenDesc DP.cleanConts DP.dedentBlock DP.marginOf
    simp [DP.dropLeadingEmpty, DP.dropTrailingEmpty, List.min?, strMk_data]
  have hok : ∀ n, DP.Epydoc.tagArgsOk (String.mk t.data) n = true := by
    intro n
    rw [strMk_data]
    unfold DP.Epydoc.tagArgsOk
    rw [if_neg (fun hmm => hmem ((recognized_mem_iff t).mpr (by
          rcases List.mem_append.mp hmm with h1 | h1 <;> tauto)))]
    rw [if_neg (fun hmm => hmem ((recognized_mem_iff t).mpr (by tauto)))]
    rw [if_neg (fun hmm => hmem ((recognized_mem_iff t).mpr (by
          rcases List.mem_append.mp hmm with h1 | h1
          · rcases List.mem_append.mp h1 with h2 | h2
            · rcases List.mem_append.mp h2 with h3 | h3 <;> tauto
            · tauto
          · tauto)))]
  unfold DP.Epydoc.parseToken DP.metaLineOf
  simp only []
  rw [breakAtChar_append hcolon]
  simp only []
  rw [hlstrip, wordsL_single htne2 hnws]
  simp only []
  rw [if_pos (hok _)]
  rw [hdesc]
  simp [strMk_data]

theorem metaLines_generic {t d : String} (hd : DP.goodDesc d = true) :
    DP.Epydoc.metaLines (DP.DocstringMeta.meta [t] (some d)) =
      [DP.metaLineOf (t, d)] := by
  obtain ⟨⟨c, dt, hdd, hdw⟩, hdn⟩ := goodDesc_spec hd
  have hdne : ¬(d.data = [] ∧ ([] : List Char) = []) := by
    rw [hdd]; simp
  have hred : DP.Epydoc.metaLines (DP.DocstringMeta.meta [t] (some d)) =
      ['@' :: DP.joinSep ' ' ([t].map String.data) ++
        DP.Epydoc.colonDesc (some d)] := rfl
  rw [hred]
  unfold DP.Epydoc.colonDesc
  simp only []
  rw [splitChar_not_mem hdn]
  have hdne2 : ¬ d.data = [] := by rw [hdd]; simp
  simp [hdne2, DP.metaLineOf, DP.joinL, DP.joinSep]

theorem addMeta_filterMap (stream : List DP.Epydoc.StreamToken)
    (rta yta : Option String) (ms : List (String × String))
    (h : ∀ p ∈ ms, p.1 ∉ DP.Epydoc.recognizedKeywords) :
    (ms.map (fun p => ⟨p.1, [], p.2⟩ : String × String → DP.Epydoc.StreamToken)).filterMap
      (fun t =>
        if t.tag ∈ DP.Epydoc.typeKeywords ++ DP.Epydoc.rtypeKeywords ++
            DP.Epydoc.ytypeKeywords then none
        else if t.tag ∈ DP.Epydoc.paramKeywords then
          match t.args with
          | [n] => some (DP.DocstringMeta.param [t.tag, n] (some t.desc) n
              (DP.Epydoc.typeFor stream n) false none)
          | _ => none
        else if t.tag ∈ DP.Epydoc.returnKeywords then
          some (DP.DocstringMeta.returns [t.tag] (some t.desc) rta false)
        else if t.tag ∈ DP.Epydoc.yieldKeywords then
          some (DP.DocstringMeta.returns [t.tag] (some t.desc) yta true)
        else if t.tag ∈ DP.Epydoc.raiseKeywords then
          some (DP.DocstringMeta.raises (t.tag :: t.args) (some t.desc)
            t.args.head?)
        else some (DP.DocstringMeta.meta (t.tag :: t.args) (some t.desc))) =
      ms.map (fun p => DP.DocstringMeta.meta [p.1] (some p.2)) := by
  induction ms with
  | nil => rfl
  | cons p ms ih =>
    have hnmp : p.1 ∉ DP.Epydoc.recognizedKeywords := h p (by simp)
    simp only [List.map_cons, List.filterMap_cons]
    rw [if_neg (fun hmm => hnmp ((recognized_mem_iff p.1).mpr (by
        rcases List.mem_append.mp hmm with hmm2 | hmm2
        · rcases List.mem_append.mp hmm2 with hmm3 | hmm3 <;> tauto
        · tauto)))]
    rw [if_neg (fun hmm => hnmp ((recognized_mem_iff p.1).mpr (by tauto)))]
    rw [if_neg (fun hmm => hnmp ((recognized_mem_iff p.1).mpr (by tauto)))]
    rw [if_neg (fun hmm => hnmp ((recognized_mem_iff p.1).mpr (by tauto)))]
    rw [if_neg (fun hmm => hnmp ((recognized_mem_iff p.1).mpr (by tauto)))]
    rw [ih (fun q hq => h q (by simp [hq]))]

theorem addMeta_generic (ms : List (String × String))
    (h : ∀ p ∈ ms, DP.goodTag p.1 = true) :
    DP.Epydoc.addMetaInformation
        (ms.map (fun p => ⟨p.1, [], p.2⟩ : String × String → DP.Epydoc.StreamToken)) =
      ms.map (fun p => DP.DocstringMeta.meta [p.1] (some p.2)) := by
  have hnm : ∀ p ∈ ms, p.1 ∉ DP.Epydoc.recognizedKeywords :=
    fun p hp => (goodTag_spec (h p hp)).2.2
  have hfind : ∀ kws : List String,
      (∀ x, x ∈ kws → x ∈ DP.Epydoc.recognizedKeywords) →
      (ms.map (fun p => ⟨p.1, [], p.2⟩ : String × String → DP.Epydoc.StreamToken)).find?
        (fun tk => tk.tag ∈ kws) = none := by
    intro kws hk
    apply List.find?_eq_none.mpr
    intro x hx
    obtain ⟨p, hp, rfl⟩ := List.mem_map.mp hx
    simpa using fun hmm => hnm p hp (hk _ hmm)
  unfold DP.Epydoc.addMetaInformation DP.Epydoc.rtypeOf
  rw [hfind DP.Epydoc.rtypeKeywords
        (fun x hx => (recognized_mem_iff x).mpr (by tauto)),
      hfind DP.Epydoc.ytypeKeywords
        (fun x hx => (recognized_mem_iff x).mpr (by tauto))]
  simp only [Option.map_none', List.append_nil]
  exact addMeta_filterMap _ none none ms hnm

theorem mapM_map_ok {α γ β : Type} {F : α → γ}
    {f : γ → Except DP.ParseError β} {g : α → β} (l : List α)
    (h : ∀ a ∈ l, f (F a) = Except.ok (g a)) :
    (l.map F).mapM f = Except.ok (l.map g) := by
  induction l with
  | nil => rfl
  | cons a l ih =>
    rw [List.map_cons, List.mapM_cons, h a (by simp),
      ih (fun b hb => h b (by simp [hb]))]
    rfl

theorem flatMap_map_singletons {α γ β : Type} {F : α → γ}
    {f : γ → List β} {g : α → β} (l : List α)
    (h : ∀ a ∈ l, f (F a) = [g a]) :
    (l.map F).flatMap f = l.map g := by
  induction l with
  | nil => rfl
  | cons a l ih =>
    rw [List.map_cons, List.flatMap_cons, h a (by simp),
      ih (fun b hb => h b (by simp [hb]))]
    rfl

theorem epydoc_roundtrip_core (s : String) (blank : Bool)
    (ms : List (String × String)) (hs : DP.goodShort s = true)
    (hne : ms ≠ [])
    (hms : ms.all (fun p => DP.goodTag p.1 && DP.goodDesc p.2) = true) :
    DP.Epydoc.parse (DP.buildEpydoc s blank ms) =
      Except.ok ⟨some s, none, blank, false, some DP.DocstringStyle.epydoc,
        ms.map (fun p => DP.DocstringMeta.meta [p.1] (some p.2))⟩ ∧
    DP.Epydoc.compose ⟨some s, none, blank, false,
        some DP.DocstringStyle.epydoc,
        ms.map (fun p => DP.DocstringMeta.meta [p.1] (some p.2))⟩ =
      DP.buildEpydoc s blank ms ∧
    DP.normalizeText (DP.buildEpydoc s blank ms) =
      DP.buildEpydoc s blank ms := by
  have hmsg : ∀ p ∈ ms, DP.goodTag p.1 = true ∧ DP.goodDesc p.2 = true := by
    intro p hp
    have := (List.all_eq_true.mp hms) p hp
    simpa [Bool.and_eq_true] using this
  obtain ⟨⟨c0, t0, hsd, hsw, hsat⟩, hsn⟩ := goodShort_spec hs
  have hsne : s.data ≠ [] := by rw [hsd]; simp
  have hml_nonl : ∀ l ∈ ms.map DP.metaLineOf, '\n' ∉ l := by
    intro l hl
    obtain ⟨p, hp, rfl⟩ := List.mem_map.mp hl
    obtain ⟨hgt, hgd⟩ := hmsg p hp
    obtain ⟨_, hchars, _⟩ := goodTag_spec hgt
    obtain ⟨_, hdn⟩ := goodDesc_spec hgd
    intro hmem
    unfold DP.metaLineOf at hmem
    rcases List.mem_cons.mp hmem with h1 | h1
    · exact absurd h1 (by decide)
    · rcases List.mem_append.mp h1 with h2 | h2
      · exact (hchars _ h2).2.2 rfl
      · rcases List.mem_cons.mp h2 with h3 | h3
        · exact absurd h3 (by decide)
        · rcases List.mem_cons.mp h3 with h4 | h4
          · exact absurd h4 (by decide)
          · exact hdn h4
  have hmne : ms.map DP.metaLineOf ≠ [] := by simpa using hne
  have hsplit : DP.splitLinesStr (DP.buildEpydoc s blank ms) =
      s.data :: ((if blank then [[]] else []) ++ ms.map DP.metaLineOf) := by
    unfold DP.splitLinesStr DP.buildEpydoc
    apply splitChar_joinL
    · simp
    · intro l hl
      rcases List.mem_cons.mp hl with rfl | hl
      · exact hsn
      · rcases List.mem_append.mp hl with hl2 | hl2
        · cases blank <;> simp_all
        · exact hml_nonl l hl2
  have hclean : DP.cleandocLines
      (s.data :: ((if blank then [[]] else []) ++ ms.map DP.metaLineOf)) =
      s.data :: ((if blank then [[]] else []) ++ ms.map DP.metaLineOf) := by
    apply cleandoc_fixed
    · exact ⟨c0, t0, hsd, hsw⟩
    · intro l hl
      rcases List.mem_append.mp hl with hl2 | hl2
      · cases blank <;> simp_all
      · obtain ⟨p, hp, rfl⟩ := List.mem_map.mp hl2
        exact Or.inr ⟨'@', _, rfl, by decide⟩
    · cases ms with
      | nil => exact absurd rfl hne
      | cons p ms2 =>
        exact ⟨DP.metaLineOf p,
          List.mem_append.mpr (Or.inr (by simp)), by simp [DP.metaLineOf]⟩
    · rw [List.getLast?_append_of_ne_nil _ hmne, List.getLast?_map]
      cases hgl : ms.getLast? with
      | none => exact absurd (List.getLast?_eq_none_iff.mp hgl) hne
      | some q => simp [DP.metaLineOf]
  have hmarker : DP.splitAtMarker DP.Epydoc.isAtLine
      (s.data :: ((if blank then [[]] else []) ++ ms.map DP.metaLineOf)) =
      (s.data :: (if blank then [[]] else []), ms.map DP.metaLineOf) := by
    have heq : s.data :: ((if blank then [[]] else []) ++ ms.map DP.metaLineOf) =
        (s.data :: (if blank then [[]] else [])) ++ ms.map DP.metaLineOf := by
      simp
    rw [heq]
    apply splitAtMarker_eq
    · intro l hl
      rcases List.mem_cons.mp hl with rfl | hl
      · rw [hsd]
        simpa [DP.Epydoc.isAtLine] using hsat
      · cases blank <;> simp_all [DP.Epydoc.isAtLine]
    · intro hd hhd
      cases ms with
      | nil => exact absurd rfl hne
      | cons p ms2 =>
        simp only [List.map_cons, List.head?_cons, Option.some_inj] at hhd
        rw [← hhd]
        simp [DP.Epydoc.isAtLine, DP.metaLineOf]
  have hchunk : DP.descChunk (s.data :: (if blank then [[]] else []))
      (ms.map DP.metaLineOf) =
      (s.data :: (if blank then [[]] else [])) ++ [[]] := by
    unfold DP.descChunk
    rw [if_neg hmne]
  have hparts : DP.splitDesc
      ((s.data :: (if blank then [[]] else [])) ++ [[]]) =
      ⟨some s, none, blank, false⟩ := by
    cases blank
    · show DP.splitDesc (s.data :: [[]]) = _
      unfold DP.splitDesc
      simp [hsne, DP.joinL, DP.joinSep, DP.stripL, DP.lstripL, DP.rstripL,
        strMk_data]
    · show DP.splitDesc (s.data :: [[], []]) = _
      unfold DP.splitDesc
      simp [hsne, DP.joinL, DP.joinSep, DP.stripL, DP.lstripL, DP.rstripL,
        List.dropWhile, DP.isWs, strMk_data]
  have hgroup : DP.groupTokens DP.Epydoc.isAtLine (ms.map DP.metaLineOf) =
      ms.map (fun p => (DP.metaLineOf p, [])) := by
    rw [groupTokens_all_start DP.Epydoc.isAtLine (ms.map DP.metaLineOf)
      (by
        intro l hl
        obtain ⟨p, hp, rfl⟩ := List.mem_map.mp hl
        simp [DP.Epydoc.isAtLine, DP.metaLineOf])]
    simp [List.map_map]
  have hmapM : (ms.map (fun p => (DP.metaLineOf p, ([] : List DP.Line)))).mapM
      (fun g => DP.Epydoc.parseToken g.1 g.2) =
      Except.ok (ms.map
        (fun p => (⟨p.1, [], p.2⟩ : DP.Epydoc.StreamToken))) :=
    mapM_map_ok ms
      (fun p hp => parseToken_generic (hmsg p hp).1 (hmsg p hp).2)
  refine ⟨?_, ?_, ?_⟩
  · simp only [DP.Epydoc.parse]
    rw [hsplit, hclean, hmarker]
    simp only []
    rw [hchunk, hparts, hgroup, hmapM]
    simp only []
    rw [addMeta_generic ms (fun p hp => (hmsg p hp).1)]
  · unfold DP.Epydoc.compose DP.descLines
    simp only []
    rw [flatMap_map_singletons ms
      (fun p hp => metaLines_generic (hmsg p hp).2)]
    unfold DP.buildEpydoc
    cases blank <;> simp
  · unfold DP.normalizeText
    rw [hsplit, hclean]
    rfl

/-- C1: Round-trip idempotence: for every well-formed docstring text
(a good short-description line, an optional blank line, and a non-empty
run of generic one-line `@tag: description` fields), composing the result
of parsing it with the Epydoc parser returns the normalized input, where
normalization only collapses the leading indentation shared by all lines
and surrounding blank lines (`inspect.cleandoc`); on this class the
normalized input is the input itself. -/
theorem epydoc_roundtrip_wellformed (text : String)
    (h : DP.wellFormedEpydoc text) :
    Except.map DP.Epydoc.compose (DP.Epydoc.parse text) =
      Except.ok (DP.normalizeText text) ∧
    DP.normalizeText text = text := by
  obtain ⟨s, blank, ms, rfl, hs, hne, hms⟩ := h
  obtain ⟨hparse, hcomp, hnorm⟩ := epydoc_roundtrip_core s blank ms hs hne hms
  refine ⟨?_, hnorm⟩
  rw [hparse]
  simp only [Except.map]
  rw [hcomp, hnorm]

/-- Witness for C1 at the Epydoc input `"Short description\n@meta: asd"`,
which composes back to exactly itself. -/
theorem epydoc_roundtrip_wellformed_witness :
    DP.wellFormedEpydoc "Short description\n@meta: asd" ∧
    (Except.map DP.Epydoc.compose
        (DP.Epydoc.parse "Short description\n@meta: asd") =
      Except.ok (DP.normalizeText "Short description\n@meta: asd") ∧
    DP.normalizeText "Short description\n@meta: asd" =
      "Short description\n@meta: asd") := by
  have hwf : DP.wellFormedEpydoc "Short description\n@meta: asd" :=
    ⟨"Short description", false, [("meta", "asd")], by decide, by decide,
      by decide, by decide⟩
  exact ⟨hwf, epydoc_roundtrip_wellformed _ hwf⟩
